import Mathlib

/-!
Verification of the fix-it-felix orchestration engine: a shallow embedding of
the ConfigManager, BaseFixer/CustomFixer, the FixitFelix orchestrator's
aggregation, change-set resolution and loop-guard logic, together with
theorems settling the specified properties.
-/

namespace Felix

/-! ## String helpers modelling the JavaScript string primitives used by the code.

JavaScript `split`, `trim`, `toLowerCase`, `includes` and template
interpolation are modelled by structurally recursive functions on `List Char`
so that every definition evaluates by kernel reduction.
-/

/-- Model of JavaScript `String.prototype.split(sep)` for a one-character
separator, on character lists.  `split` of the empty string yields `[""]`. -/
def splitOnChar (sep : Char) : List Char → List (List Char)
  | [] => [[]]
  | c :: cs =>
    let rest := splitOnChar sep cs
    if c == sep then [] :: rest
    else
      match rest with
      | [] => [[c]]
      | piece :: pieces => (c :: piece) :: pieces

/-- Whitespace recognised by JavaScript `trim` (the forms the code can meet). -/
def isJsWhitespace (c : Char) : Bool :=
  c == ' ' || c == '\t' || c == '\n' || c == '\r'

/-- Model of JavaScript `String.prototype.trim` on character lists. -/
def trimChars (l : List Char) : List Char :=
  ((l.dropWhile isJsWhitespace).reverse.dropWhile isJsWhitespace).reverse

/-- Model of JavaScript `String.prototype.trim`. -/
def jsTrim (s : String) : String := String.mk (trimChars s.data)

/-- Model of JavaScript `String.prototype.toLowerCase` (ASCII, which is all
the code's comparisons rely on). -/
def jsToLower (s : String) : String := String.mk (s.data.map Char.toLower)

/-- Does `pat` occur at the start of `l`? -/
def startsWithChars : List Char → List Char → Bool
  | [], _ => true
  | _ :: _, [] => false
  | p :: ps, c :: cs => p == c && startsWithChars ps cs

/-- Does `pat` occur anywhere in `l`? -/
def containsChars (pat : List Char) : List Char → Bool
  | [] => startsWithChars pat []
  | c :: cs => startsWithChars pat (c :: cs) || containsChars pat cs

/-- Model of JavaScript `s.includes(sub)`. -/
def jsIncludes (s sub : String) : Bool := containsChars sub.data s.data

/-- Model of the idiom `s.split(',').map(x => x.trim()).filter(x => x.length > 0)`
used by `ConfigManager.getFixers`, `getPaths` and `getAllowedBots`. -/
def splitCommaTrimFilter (s : String) : List String :=
  (((splitOnChar ',' s.data).map (fun l => String.mk (trimChars l))).filter
    (fun t => t.length > 0))

/-- Model of the idiom `output.trim().split('\n').filter(f => f.length > 0)`
used on captured git output. -/
def splitLinesFilter (s : String) : List String :=
  (((splitOnChar '\n' (trimChars s.data)).map String.mk).filter
    (fun t => t.length > 0))

/-! ## Fixer results and `BaseFixer.run` (src/fixers/base.ts)

`BaseFixer.run` is embedded as a total function over an explicit environment
describing the outcome of each external interaction: the availability probe,
command construction (which `CustomFixer.getCommand` can make throw), the
external process execution (exit code and captured output, or a thrown
error), and the post-run `git diff --name-only` file list
(`getChangedFiles` catches internally and returns `[]` on failure, so it is
modelled as a plain list).
-/

/-- The `FixerResult` record of src/types.ts. -/
structure FixerResult where
  name : String
  success : Bool
  changedFiles : List String
  output : String
  error : Option String := none
deriving Repr, DecidableEq

/-- Outcome environment for one `BaseFixer.run` invocation.  `Except String`
models a JavaScript throw carrying its message. -/
structure RunEnv where
  name : String
  available : Except String Bool
  command : Except String (List String)
  execResult : Except String (Int × String)
  diffFiles : List String
deriving Repr

namespace BaseFixer

/-- Embedding of `BaseFixer.run` from src/fixers/base.ts lines 46-122.  The
`try` block covers the availability probe, command construction and process
execution; a throw at any of those points lands in the `catch` which stores
the message in `error` and leaves `success` at its initial `false`. -/
def run (env : RunEnv) : FixerResult :=
  let result : FixerResult :=
    { name := env.name, success := false, changedFiles := [], output := "" }
  match env.available with
  | .error msg => { result with error := some msg }
  | .ok false => { result with error := some (env.name ++ " is not available") }
  | .ok true =>
    match env.command with
    | .error msg => { result with error := some msg }
    | .ok _cmd =>
      match env.execResult with
      | .error msg => { result with error := some msg }
      | .ok (exitCode, output) =>
        let changed := env.diffFiles
        let didRun := exitCode != 127 && exitCode != 126
        let madeChanges := changed.length > 0
        let success := exitCode == 0 || (didRun && madeChanges)
        let error :=
          if exitCode != 0 && !success then
            some (env.name ++ " exited with code " ++ toString exitCode)
          else none
        { result with
            output := output
            changedFiles := changed
            success := success
            error := error }

end BaseFixer

/-! ## `CustomFixer` command construction (src/fixers/custom.ts, base.ts 16-40) -/

/-- The slice of a fixer's configuration that `BaseFixer.hasCustomCommand`
and `getCustomCommand` read.  `command := none` models an absent or
non-array `command` key. -/
structure CustomCmdConfig where
  command : Option (List String) := none
  appendPaths : Option Bool := none
deriving Repr, DecidableEq

/-- Embedding of `BaseFixer.hasCustomCommand`: the config's `command` is a
non-empty array. -/
def hasCustomCommand (config : CustomCmdConfig) : Bool :=
  match config.command with
  | some cmd => cmd.length > 0
  | none => false

/-- Embedding of `BaseFixer.getCustomCommand`: paths are appended unless
`appendPaths` is explicitly `false` or the paths are absent or just the
default `["."]`. -/
def getCustomCommand (config : CustomCmdConfig) (paths : List String) : List String :=
  if !hasCustomCommand config then []
  else
    let cmd := config.command.getD []
    let shouldAppendPaths := config.appendPaths != some false
    if shouldAppendPaths && paths.length > 0 && !(paths == ["."]) then
      cmd ++ paths
    else cmd

namespace CustomFixer

/-- Embedding of `CustomFixer.getCommand` (src/fixers/custom.ts lines 13-20):
throws when no custom command is configured. -/
def getCommand (name : String) (config : CustomCmdConfig) (paths : List String) :
    Except String (List String) :=
  if !hasCustomCommand config then
    .error ("Custom fixer " ++ name ++ " requires a command to be configured")
  else .ok (getCustomCommand config paths)

end CustomFixer

/-! ## Orchestrator aggregation (src/felix.ts lines 96-118)

The per-fixer bookkeeping of `FixitFelix.run` and the final adjustment of
`hasFailures` are embedded as a fold over the sequence of `FixerResult`s the
fixers produced, followed by the `[...new Set(...)]` deduplication and the
`if (result.fixesApplied) result.hasFailures = false` step.
-/

/-- The aggregate `FelixResult` record of src/types.ts. -/
structure FelixResult where
  fixesApplied : Bool
  changedFiles : List String
  fixerResults : List FixerResult
  hasFailures : Bool
deriving Repr, DecidableEq

/-- Model of `[...new Set(list)]`: drop later duplicates, keeping first
occurrences in insertion order. -/
def jsSetDedup (l : List String) : List String :=
  l.foldl (fun acc x => if acc.contains x then acc else acc ++ [x]) []

/-- One iteration of the fixer loop of `FixitFelix.run`: record the result,
then update `fixesApplied` / `changedFiles` on success-with-changes and
`hasFailures` on raw failure. -/
def processFixerResult (acc : FelixResult) (fr : FixerResult) : FelixResult :=
  let acc := { acc with fixerResults := acc.fixerResults ++ [fr] }
  if fr.success && fr.changedFiles.length > 0 then
    { acc with changedFiles := acc.changedFiles ++ fr.changedFiles, fixesApplied := true }
  else if !fr.success then
    { acc with hasFailures := true }
  else acc

/-- Embedding of the aggregation performed by `FixitFelix.run` over the
fixer results: the loop, the deduplication of `changedFiles`, and the final
suppression of `hasFailures` whenever any fixes were applied. -/
def aggregateRun (results : List FixerResult) : FelixResult :=
  let init : FelixResult :=
    { fixesApplied := false, changedFiles := [], fixerResults := [], hasFailures := false }
  let r := results.foldl processFixerResult init
  let r := { r with changedFiles := jsSetDedup r.changedFiles }
  if r.fixesApplied then { r with hasFailures := false } else r

/-! ## `ConfigManager` of src/config.ts -/

/-- The action-level inputs consumed by `ConfigManager`. -/
structure FelixInputs where
  fixers : String
  paths : String
  allowedBots : String
deriving Repr, DecidableEq

/-- The parsed configuration document as read by the `ConfigManager` of
src/config.ts: `none` models an absent key. -/
structure FelixConfigDoc where
  fixers : Option (List String) := none
  paths : Option (List String) := none
deriving Repr, DecidableEq

namespace ConfigManager

/-- Embedding of `ConfigManager.getFixers` (src/config.ts lines 29-39): a
non-empty config-file `fixers` array wins over the comma-separated input. -/
def getFixers (config : FelixConfigDoc) (inputs : FelixInputs) : List String :=
  match config.fixers with
  | some fs => if fs.length > 0 then fs else splitCommaTrimFilter inputs.fixers
  | none => splitCommaTrimFilter inputs.fixers

/-- Embedding of `ConfigManager.getPaths` (src/config.ts lines 41-55): a
non-empty (truthy) input string wins over the config file, which wins over
the default `["."]`. -/
def getPaths (config : FelixConfigDoc) (inputs : FelixInputs) : List String :=
  if inputs.paths != "" then splitCommaTrimFilter inputs.paths
  else
    match config.paths with
    | some ps => if ps.length > 0 then ps else ["."]
    | none => ["."]

/-- Embedding of `ConfigManager.getAllowedBots`. -/
def getAllowedBots (inputs : FelixInputs) : List String :=
  splitCommaTrimFilter inputs.allowedBots

end ConfigManager

/-! ## Inline/legacy fixer configuration resolution

Embedding of the `ConfigManager.getFixerConfig` that supports the inline
fixer format (the variant whose `fixers` array holds strings and inline
objects, with legacy top-level per-name blocks kept for backward
compatibility).
-/

/-- The `FixerConfig` record of the inline-format types. -/
structure FixerConfig where
  name : Option String := none
  configFile : Option String := none
  extensions : Option (List String) := none
  paths : Option (List String) := none
  command : Option (List String) := none
  appendPaths : Option Bool := none
  env : Option (List (String × String)) := none
deriving Repr, DecidableEq

/-- A `fixers` array entry: a bare name or an inline configuration object. -/
inductive FixerItem where
  | str (s : String)
  | obj (c : FixerConfig)
deriving Repr, DecidableEq

/-- The configuration document for the inline-aware `ConfigManager`: the
`fixers` array plus the legacy top-level per-name blocks (modelled as an
association list from fixer name to block). -/
structure FelixConfigInline where
  fixers : Option (List FixerItem) := none
  legacy : List (String × FixerConfig) := []
deriving Repr, DecidableEq

/-- Embedding of the private `ConfigManager.getFixerName`: a string entry is
its own name; an object entry's name is its `name` field, with the JS-falsy
default `'unnamed-fixer'` when absent or empty. -/
def getFixerName (fixer : FixerItem) : String :=
  match fixer with
  | .str s => s
  | .obj c =>
    match c.name with
    | some n => if n == "" then "unnamed-fixer" else n
    | none => "unnamed-fixer"

/-- The scan of the `fixers` array performed by `getFixerConfig`: the first
object entry whose resolved name matches wins. -/
def findInlineConfig (fixerName : String) : List FixerItem → Option FixerConfig
  | [] => none
  | .str _ :: rest => findInlineConfig fixerName rest
  | .obj c :: rest =>
    if getFixerName (.obj c) == fixerName then some c
    else findInlineConfig fixerName rest

/-- Legacy lookup `this.config[fixerName]` over the top-level per-name blocks. -/
def findLegacyConfig (fixerName : String) : List (String × FixerConfig) → Option FixerConfig
  | [] => none
  | (n, c) :: rest => if n == fixerName then some c else findLegacyConfig fixerName rest

/-- Embedding of the inline-aware `ConfigManager.getFixerConfig`: inline
`fixers` array entries are searched first, then the legacy top-level block,
else the empty configuration. -/
def getFixerConfig (config : FelixConfigInline) (fixerName : String) : FixerConfig :=
  match config.fixers with
  | some items =>
    match findInlineConfig fixerName items with
    | some c => c
    | none => (findLegacyConfig fixerName config.legacy).getD {}
  | none => (findLegacyConfig fixerName config.legacy).getD {}

/-- The setting fields of a `FixerConfig`, i.e. everything except the
informational `name` tag an inline entry carries. -/
def FixerConfig.settings (c : FixerConfig) :=
  (c.configFile, c.extensions, c.paths, c.command, c.appendPaths, c.env)

/-! ## Change-set resolution (`FixitFelix.getChangedFilesInPR`, src/felix.ts 513-595)

The platform API is modelled by its collaborator contract: `octokit.paginate`
yields the concatenation of all result pages (or the whole call throws), each
entry carrying a `filename`.  Each git diff strategy either throws or yields
raw stdout.  `fs.existsSync` is an oracle `String → Bool`.
-/

/-- One file entry returned by the pull-request file-listing API. -/
structure PRFile where
  filename : String
deriving Repr, DecidableEq

/-- The strategy loop over the git diff ranges: the first strategy that runs
and, after line-splitting and existence filtering, yields at least one file
wins; if every strategy throws or yields nothing, fall back to the
configured paths, returned verbatim. -/
def tryGitStrategies (existsOnDisk : String → Bool) (configuredPaths : List String) :
    List (Except Unit String) → List String
  | [] => configuredPaths
  | .error _ :: rest => tryGitStrategies existsOnDisk configuredPaths rest
  | .ok output :: rest =>
    let changedFiles := (splitLinesFilter output).filter existsOnDisk
    if changedFiles.length > 0 then changedFiles
    else tryGitStrategies existsOnDisk configuredPaths rest

/-- Embedding of `FixitFelix.getChangedFilesInPR`: try the paginated API
(mapping entries to filenames and dropping files that no longer exist), on
API failure try the git diff strategies in order, and as a last resort
return the configured paths. -/
def getChangedFilesInPR (api : Except Unit (List (List PRFile)))
    (gitOutputs : List (Except Unit String)) (configuredPaths : List String)
    (existsOnDisk : String → Bool) : List String :=
  match api with
  | .ok pages => ((pages.flatten).map PRFile.filename).filter existsOnDisk
  | .error _ => tryGitStrategies existsOnDisk configuredPaths gitOutputs

/-! ## Loop guard (`FixitFelix.isInfiniteLoopRisk`, src/felix.ts 154-214)

Embedded as a pure function of the two git reads (author name and commit
subject, each `Except Unit String` since a failed git call throws into the
surrounding catch) and the raw allowed-bots input string.  The result `true`
means "loop risk, skip"; `false` means "proceed".
-/

/-- Embedding of `FixitFelix.isInfiniteLoopRisk`. -/
def isInfiniteLoopRisk (authorResult : Except Unit String) (allowedBotsRaw : String)
    (messageResult : Except Unit String) : Bool :=
  match authorResult with
  | .error _ => false
  | .ok lastAuthor =>
    let allowedBots := splitCommaTrimFilter allowedBotsRaw
    let isAllowedBot :=
      allowedBots.any (fun b => jsIncludes (jsToLower lastAuthor) (jsToLower b))
    if isAllowedBot then false
    else
      let felixIndicators := ["fix-it-felix", "felix", "github-actions[bot]"]
      let isLastCommitByFelix :=
        felixIndicators.any (fun ind => jsIncludes (jsToLower lastAuthor) ind)
      let isGenericBot := jsIncludes (jsToLower lastAuthor) "[bot]"
      let isUnknownBot := isGenericBot && !isAllowedBot
      if isLastCommitByFelix || isUnknownBot then true
      else
        match messageResult with
        | .error _ => false
        | .ok lastCommitMessage => jsIncludes lastCommitMessage "Fix-it Felix"

/-- First thrown message, if any, among the interactions `BaseFixer.run`
performs inside its `try` block, in the order the code performs them. -/
def RunEnv.thrownMsg (env : RunEnv) : Option String :=
  match env.available with
  | .error m => some m
  | .ok false => none
  | .ok true =>
    match env.command with
    | .error m => some m
    | .ok _ =>
      match env.execResult with
      | .error m => some m
      | .ok _ => none

/-! ## Helper lemmas -/

theorem startsWithChars_self : ∀ l : List Char, startsWithChars l l = true
  | [] => rfl
  | c :: cs => by simp [startsWithChars, startsWithChars_self cs]

theorem containsChars_append_self : ∀ a b : List Char, containsChars b (a ++ b) = true
  | [], b => by
    cases b with
    | nil => rfl
    | cons c cs => simp [containsChars, startsWithChars_self]
  | x :: xs, b => by
    simp [containsChars, containsChars_append_self xs b]

theorem string_data_append (a b : String) : (a ++ b).data = a.data ++ b.data := by
  cases a
  cases b
  rfl

theorem jsIncludes_append_self (a b : String) : jsIncludes (a ++ b) b = true := by
  simp [jsIncludes, string_data_append, containsChars_append_self]

end Felix

/-! ## Claim theorems -/

/-- Claim C1: for every fixer run, the derived success classification
satisfies: exit code 0 implies `success = true`; exit code 126 or 127
implies `success = false` regardless of whether the post-run changed-files
list is empty, with the error message mentioning the exit code; and any
other non-zero exit code with a non-empty post-run changed-files list
implies `success = true`. -/
theorem C1_success_classification (env : Felix.RunEnv) (code : Int) (out : String)
    (c : List String)
    (hav : env.available = .ok true) (hcmd : env.command = .ok c)
    (hex : env.execResult = .ok (code, out)) :
    (code = 0 → (Felix.BaseFixer.run env).success = true) ∧
    ((code = 126 ∨ code = 127) →
      (Felix.BaseFixer.run env).success = false ∧
      ∃ e, (Felix.BaseFixer.run env).error = some e ∧
        Felix.jsIncludes e (toString code) = true) ∧
    (code ≠ 0 → code ≠ 126 → code ≠ 127 → env.diffFiles ≠ [] →
      (Felix.BaseFixer.run env).success = true) := by
  unfold Felix.BaseFixer.run
  rw [hav, hcmd, hex]
  refine ⟨?_, ?_, ?_⟩
  · intro h
    subst h
    simp
  · rintro (h | h) <;> subst h <;>
      exact ⟨by simp, env.name ++ " exited with code " ++ toString _,
        by simp, Felix.jsIncludes_append_self _ _⟩
  · intro h0 h126 h127 hfiles
    have h1 : (code == 0) = false := by simpa using h0
    have h2 : (code != 127) = true := by simpa using h127
    have h3 : (code != 126) = true := by simpa using h126
    simp [h1, h2, h3, List.length_pos, hfiles]

theorem C1_witness :
    (Felix.BaseFixer.run
      { name := "prettier", available := .ok true, command := .ok ["npx", "prettier"],
        execResult := .ok (0, ""), diffFiles := [] }).success = true :=
  (C1_success_classification _ 0 "" ["npx", "prettier"] rfl rfl rfl).1 rfl

/-- Claim C2 (code behavior at the claimed input): a fixer whose command
exits with code 1 while the post-run changed-files list is empty is marked
`success = false` with error `"prettier exited with code 1"`, contradicting
the specified unfixable-issues policy (and the repository's own test
expecting `success = true` there). -/
theorem C2_exit1_no_changes_behavior :
    Felix.BaseFixer.run
      { name := "prettier", available := .ok true, command := .ok ["npx", "prettier"],
        execResult := .ok (1, ""), diffFiles := [] } =
    { name := "prettier", success := false, changedFiles := [], output := "",
      error := some "prettier exited with code 1" } := by
  decide

/-- Claim C10: `BaseFixer.run` always yields a `FixerResult`: whichever
interaction inside its `try` block throws, the thrown message is captured
into the result's `error` field with `success = false`; an unavailable
fixer likewise yields a failed result with an explanatory error; and
`CustomFixer.getCommand` with no configured command throws a message that
therefore surfaces in the result instead of aborting the batch. -/
theorem C10_run_never_raises :
    (∀ (env : Felix.RunEnv) (m : String), env.thrownMsg = some m →
      Felix.BaseFixer.run env =
        { name := env.name, success := false, changedFiles := [], output := "",
          error := some m }) ∧
    (∀ env : Felix.RunEnv, env.available = .ok false →
      Felix.BaseFixer.run env =
        { name := env.name, success := false, changedFiles := [], output := "",
          error := some (env.name ++ " is not available") }) ∧
    (∀ (n : String) (paths : List String),
      Felix.CustomFixer.getCommand n { command := none } paths =
        .error ("Custom fixer " ++ n ++ " requires a command to be configured")) ∧
    (∀ (env : Felix.RunEnv) (n : String) (paths : List String),
      env.available = .ok true →
      env.command = Felix.CustomFixer.getCommand n { command := none } paths →
      (Felix.BaseFixer.run env).success = false ∧
      (Felix.BaseFixer.run env).error =
        some ("Custom fixer " ++ n ++ " requires a command to be configured")) := by
  have hcap : ∀ (env : Felix.RunEnv) (m : String), env.thrownMsg = some m →
      Felix.BaseFixer.run env =
        { name := env.name, success := false, changedFiles := [], output := "",
          error := some m } := by
    intro env m h
    unfold Felix.RunEnv.thrownMsg at h
    unfold Felix.BaseFixer.run
    cases hav : env.available with
    | error msg => rw [hav] at h; simp at h; subst h; rfl
    | ok b =>
      cases b with
      | false => rw [hav] at h; simp at h
      | true =>
        rw [hav] at h
        cases hcmd : env.command with
        | error msg => rw [hcmd] at h; simp at h; subst h; rfl
        | ok cmd =>
          rw [hcmd] at h
          cases hex : env.execResult with
          | error msg => rw [hex] at h; simp at h; subst h; rfl
          | ok pr => rw [hex] at h; simp at h
  refine ⟨hcap, ?_, ?_, ?_⟩
  · intro env h
    unfold Felix.BaseFixer.run
    rw [h]
  · intro n paths
    rfl
  · intro env n paths hav hcmd
    have hmsg : env.thrownMsg =
        some ("Custom fixer " ++ n ++ " requires a command to be configured") := by
      unfold Felix.RunEnv.thrownMsg
      rw [hav, hcmd]
      rfl
    rw [hcap env _ hmsg]
    exact ⟨rfl, rfl⟩

theorem C10_witness :
    (Felix.BaseFixer.run
      { name := "my-tool", available := .ok true,
        command := Felix.CustomFixer.getCommand "my-tool" { command := none } ["."],
        execResult := .ok (0, ""), diffFiles := [] }).error =
      some "Custom fixer my-tool requires a command to be configured" :=
  (C10_run_never_raises.2.2.2 _ "my-tool" ["."] rfl rfl).2

/-- Claim C3: for every sequence of fixer results, the aggregate result of
the orchestrator satisfies: if `fixesApplied` is true then `hasFailures` is
false, even when some fixer in the batch produced `success = false`; in
particular one fixer succeeding with changes plus a second fixer failing
with no changes yields `fixesApplied = true` and `hasFailures = false`. -/
theorem C3_aggregate_invariant :
    (∀ results : List Felix.FixerResult,
      (Felix.aggregateRun results).fixesApplied = true →
      (Felix.aggregateRun results).hasFailures = false) ∧
    ((Felix.aggregateRun
        [{ name := "prettier", success := true, changedFiles := ["src/a.ts"], output := "" },
         { name := "eslint", success := false, changedFiles := [], output := "",
           error := some "eslint exited with code 127" }]).fixesApplied = true ∧
     (Felix.aggregateRun
        [{ name := "prettier", success := true, changedFiles := ["src/a.ts"], output := "" },
         { name := "eslint", success := false, changedFiles := [], output := "",
           error := some "eslint exited with code 127" }]).hasFailures = false) := by
  constructor
  · intro results
    unfold Felix.aggregateRun
    dsimp only
    generalize List.foldl Felix.processFixerResult _ results = r
    by_cases hc : r.fixesApplied = true <;> simp [hc]
  · exact ⟨by decide, by decide⟩

theorem C3_witness :
    (Felix.aggregateRun
      [{ name := "prettier", success := true, changedFiles := ["src/a.ts"], output := "" },
       { name := "eslint", success := false, changedFiles := [], output := "",
         error := some "eslint exited with code 127" }]).hasFailures = false :=
  C3_aggregate_invariant.1 _ (by decide)

/-- Claim C4: configuration precedence is asymmetric: `getFixers` prefers
the config file's non-empty fixers list to the comma-split action input,
whereas `getPaths` prefers the non-empty action input (comma-split, trimmed,
empties dropped, so input `"src, docs , scripts "` yields
`["src", "docs", "scripts"]`) to the config file's non-empty paths,
defaulting to `["."]` when both are absent. -/
theorem C4_config_precedence :
    (∀ (config : Felix.FelixConfigDoc) (inputs : Felix.FelixInputs)
        (fs : List String), config.fixers = some fs → fs ≠ [] →
      Felix.ConfigManager.getFixers config inputs = fs) ∧
    (∀ (config : Felix.FelixConfigDoc) (inputs : Felix.FelixInputs),
      (config.fixers = none ∨ config.fixers = some []) →
      Felix.ConfigManager.getFixers config inputs =
        Felix.splitCommaTrimFilter inputs.fixers) ∧
    (∀ (config : Felix.FelixConfigDoc) (inputs : Felix.FelixInputs),
      inputs.paths ≠ "" →
      Felix.ConfigManager.getPaths config inputs =
        Felix.splitCommaTrimFilter inputs.paths) ∧
    (∀ (config : Felix.FelixConfigDoc) (inputs : Felix.FelixInputs)
        (ps : List String), inputs.paths = "" → config.paths = some ps → ps ≠ [] →
      Felix.ConfigManager.getPaths config inputs = ps) ∧
    (∀ (config : Felix.FelixConfigDoc) (inputs : Felix.FelixInputs),
      inputs.paths = "" → (config.paths = none ∨ config.paths = some []) →
      Felix.ConfigManager.getPaths config inputs = ["."]) ∧
    Felix.splitCommaTrimFilter "src, docs , scripts " = ["src", "docs", "scripts"] := by
  refine ⟨?_, ?_, ?_, ?_, ?_, by decide⟩
  · intro config inputs fs hfs hne
    unfold Felix.ConfigManager.getFixers
    rw [hfs]
    simp [List.length_pos, hne]
  · rintro config inputs (h | h) <;>
      simp [Felix.ConfigManager.getFixers, h]
  · intro config inputs h
    unfold Felix.ConfigManager.getPaths
    rw [if_pos (by simpa using h)]
  · intro config inputs ps hin hps hne
    unfold Felix.ConfigManager.getPaths
    rw [hin, hps]
    simp [List.length_pos, hne]
  · rintro config inputs hin (h | h) <;>
      simp [Felix.ConfigManager.getPaths, hin, h]

theorem C4_witness :
    Felix.ConfigManager.getPaths ({ } : Felix.FelixConfigDoc)
      ({ fixers := "", paths := "src, docs , scripts ", allowedBots := "" } :
        Felix.FelixInputs) = ["src", "docs", "scripts"] := by
  rw [C4_config_precedence.2.2.1 ({ } : Felix.FelixConfigDoc) _ (by decide)]
  decide

theorem getFixerConfig_some_eq (n : String) (items : List Felix.FixerItem)
    (legacy : List (String × Felix.FixerConfig)) :
    Felix.getFixerConfig { fixers := some items, legacy := legacy } n =
      (Felix.findInlineConfig n items).getD
        ((Felix.findLegacyConfig n legacy).getD { }) := by
  show (match Felix.findInlineConfig n items with
        | some c => c
        | none => (Felix.findLegacyConfig n legacy).getD { }) =
      (Felix.findInlineConfig n items).getD
        ((Felix.findLegacyConfig n legacy).getD { })
  cases Felix.findInlineConfig n items <;> rfl

theorem getFixerConfig_none_eq (n : String)
    (legacy : List (String × Felix.FixerConfig)) :
    Felix.getFixerConfig { fixers := none, legacy := legacy } n =
      (Felix.findLegacyConfig n legacy).getD { } :=
  rfl

/-- Claim C5: `getFixerConfig` resolves a legacy top-level per-name block
and an inline object inside the `fixers` array (matched by its `name`
field) to the same `FixerConfig` settings when they encode equivalent
settings; when both forms exist for the same name the inline array entry is
returned in preference to the legacy block; when neither exists it returns
the empty configuration. -/
theorem C5_fixer_config_resolution :
    (∀ (n : String) (c l : Felix.FixerConfig),
      Felix.getFixerName (.obj c) = n →
      c.settings = l.settings →
      (Felix.getFixerConfig { fixers := some [.obj c] } n).settings =
        (Felix.getFixerConfig { legacy := [(n, l)] } n).settings) ∧
    (∀ (n : String) (c : Felix.FixerConfig) (items : List Felix.FixerItem)
        (legacy : List (String × Felix.FixerConfig)),
      Felix.findInlineConfig n items = some c →
      Felix.getFixerConfig { fixers := some items, legacy := legacy } n = c) ∧
    (∀ (n : String) (l : Felix.FixerConfig) (items : List Felix.FixerItem)
        (legacy : List (String × Felix.FixerConfig)),
      Felix.findInlineConfig n items = none →
      Felix.findLegacyConfig n legacy = some l →
      Felix.getFixerConfig { fixers := some items, legacy := legacy } n = l) ∧
    (∀ (n : String) (items : List Felix.FixerItem)
        (legacy : List (String × Felix.FixerConfig)),
      Felix.findInlineConfig n items = none →
      Felix.findLegacyConfig n legacy = none →
      Felix.getFixerConfig { fixers := some items, legacy := legacy } n = { }) := by
  refine ⟨?_, ?_, ?_, ?_⟩
  · intro n c l hname hsettings
    have hinline : Felix.findInlineConfig n [.obj c] = some c := by
      unfold Felix.findInlineConfig
      rw [if_pos (by simpa using hname)]
    have h1 : Felix.getFixerConfig { fixers := some [.obj c] } n = c := by
      rw [getFixerConfig_some_eq, hinline]
      rfl
    have h2 : Felix.getFixerConfig { legacy := [(n, l)] } n = l := by
      rw [getFixerConfig_none_eq]
      unfold Felix.findLegacyConfig
      simp
    rw [h1, h2, hsettings]
  · intro n c items legacy hfind
    rw [getFixerConfig_some_eq, hfind]
    rfl
  · intro n l items legacy hnone hleg
    rw [getFixerConfig_some_eq, hnone, hleg]
    rfl
  · intro n items legacy hnone hleg
    rw [getFixerConfig_some_eq, hnone, hleg]
    rfl

theorem C5_witness :
    Felix.getFixerConfig
      { fixers := some [.obj { name := some "eslint", configFile := some "inline.json" }],
        legacy := [("eslint", { configFile := some "legacy.json" })] } "eslint" =
      { name := some "eslint", configFile := some "inline.json" } :=
  C5_fixer_config_resolution.2.1 "eslint" _ _ _ (by decide)

/-- Claim C6: change-set resolution through the paginated platform API
returns every changed file across all result pages (a 50-file pull request
yields all 50 candidate files), never truncating at a single page's default
size. -/
theorem C6_pagination_no_truncation :
    (∀ (pages : List (List Felix.PRFile)) (gitOutputs : List (Except Unit String))
        (configuredPaths : List String) (existsOnDisk : String → Bool)
        (f : Felix.PRFile),
      f ∈ pages.flatten → existsOnDisk f.filename = true →
      f.filename ∈
        Felix.getChangedFilesInPR (.ok pages) gitOutputs configuredPaths existsOnDisk) ∧
    (∀ (pages : List (List Felix.PRFile)) (gitOutputs : List (Except Unit String))
        (configuredPaths : List String),
      Felix.getChangedFilesInPR (.ok pages) gitOutputs configuredPaths (fun _ => true) =
        pages.flatten.map Felix.PRFile.filename) ∧
    (Felix.getChangedFilesInPR
        (.ok [List.replicate 30 { filename := "a.ts" }, List.replicate 20 { filename := "b.ts" }])
        [] [] (fun _ => true)).length = 50 := by
  refine ⟨?_, ?_, by decide⟩
  · intro pages gitOutputs configuredPaths existsOnDisk f hf hex
    exact List.mem_filter.mpr ⟨List.mem_map.mpr ⟨f, hf, rfl⟩, hex⟩
  · intro pages gitOutputs configuredPaths
    show (pages.flatten.map Felix.PRFile.filename).filter (fun _ => true) = _
    exact List.filter_true _

theorem C6_witness :
    ({ filename := "a.ts" } : Felix.PRFile).filename ∈
      Felix.getChangedFilesInPR
        (.ok [[{ filename := "a.ts" }], [{ filename := "b.ts" }]]) [] [] (fun _ => true) :=
  C6_pagination_no_truncation.1 [[{ filename := "a.ts" }], [{ filename := "b.ts" }]]
    [] [] (fun _ => true) { filename := "a.ts" } (by decide) rfl

/-- Claim C7 counterexample: when the platform API and every git strategy
fail, the final fallback returns the configured paths verbatim, so the
result can contain a path for which the on-disk existence check is false —
refuting the claim that every returned path exists on disk. -/
theorem C7_counterexample :
    Felix.getChangedFilesInPR (.error ()) [.error (), .error (), .error (), .error ()]
      ["ghost.ts"] (fun _ => false) = ["ghost.ts"] ∧
    (fun _ => false : String → Bool) "ghost.ts" = false :=
  ⟨rfl, rfl⟩

theorem tryGitStrategies_exists_or_fallback (existsOnDisk : String → Bool)
    (configuredPaths : List String) :
    ∀ gitOutputs : List (Except Unit String),
      (∀ f ∈ Felix.tryGitStrategies existsOnDisk configuredPaths gitOutputs,
        existsOnDisk f = true) ∨
      Felix.tryGitStrategies existsOnDisk configuredPaths gitOutputs = configuredPaths := by
  intro gitOutputs
  induction gitOutputs with
  | nil => exact Or.inr rfl
  | cons g rest ih =>
    cases g with
    | error u => exact ih
    | ok out =>
      by_cases hc : ((Felix.splitLinesFilter out).filter existsOnDisk).length > 0
      · left
        intro f hf
        have heq : Felix.tryGitStrategies existsOnDisk configuredPaths (.ok out :: rest) =
            (Felix.splitLinesFilter out).filter existsOnDisk := by
          show (if ((Felix.splitLinesFilter out).filter existsOnDisk).length > 0
                then (Felix.splitLinesFilter out).filter existsOnDisk
                else Felix.tryGitStrategies existsOnDisk configuredPaths rest) = _
          rw [if_pos hc]
        rw [heq] at hf
        exact (List.mem_filter.mp hf).2
      · have heq : Felix.tryGitStrategies existsOnDisk configuredPaths (.ok out :: rest) =
            Felix.tryGitStrategies existsOnDisk configuredPaths rest := by
          show (if ((Felix.splitLinesFilter out).filter existsOnDisk).length > 0
                then (Felix.splitLinesFilter out).filter existsOnDisk
                else Felix.tryGitStrategies existsOnDisk configuredPaths rest) = _
          rw [if_neg hc]
        rw [heq]
        exact ih

/-- Claim C7 as amended: every path returned by the platform-API strategy or
by any git diff-range strategy passes the on-disk existence filter; the one
exception is the final fallback, which returns the configured global paths
verbatim without existence filtering. -/
theorem C7_existence_or_configured_fallback :
    ∀ (api : Except Unit (List (List Felix.PRFile)))
      (gitOutputs : List (Except Unit String)) (configuredPaths : List String)
      (existsOnDisk : String → Bool),
      (∀ f ∈ Felix.getChangedFilesInPR api gitOutputs configuredPaths existsOnDisk,
        existsOnDisk f = true) ∨
      Felix.getChangedFilesInPR api gitOutputs configuredPaths existsOnDisk =
        configuredPaths := by
  intro api gitOutputs configuredPaths existsOnDisk
  cases api with
  | ok pages =>
    left
    intro f hf
    exact (List.mem_filter.mp hf).2
  | error u => exact tryGitStrategies_exists_or_fallback existsOnDisk configuredPaths gitOutputs

/-- Claim C8: an author matching any allowed-bot token (case-insensitively)
makes the loop guard proceed even when the author also matches the bot
identity tokens or the generic bracket-bot marker; author
`"dependabot[bot]"` with empty allowed-bots skips, with allowed-bots
`"dependabot"` proceeds; and any git command in the check failing makes the
guard fail open: both when the author read throws and when the author read
succeeds, the author branches pass, and the subject read throws. -/
theorem C8_allow_list_overrides_and_fail_open :
    (∀ (author allowedRaw : String) (msgR : Except Unit String),
      (Felix.splitCommaTrimFilter allowedRaw).any
        (fun b => Felix.jsIncludes (Felix.jsToLower author) (Felix.jsToLower b)) = true →
      Felix.isInfiniteLoopRisk (.ok author) allowedRaw msgR = false) ∧
    (∀ msgR : Except Unit String,
      Felix.isInfiniteLoopRisk (.ok "dependabot[bot]") "" msgR = true) ∧
    (∀ msgR : Except Unit String,
      Felix.isInfiniteLoopRisk (.ok "dependabot[bot]") "dependabot" msgR = false) ∧
    (∀ (allowedRaw : String) (msgR : Except Unit String),
      Felix.isInfiniteLoopRisk (.error ()) allowedRaw msgR = false) ∧
    (∀ author allowedRaw : String,
      (Felix.splitCommaTrimFilter allowedRaw).any
        (fun b => Felix.jsIncludes (Felix.jsToLower author) (Felix.jsToLower b)) = false →
      (["fix-it-felix", "felix", "github-actions[bot]"].any
        (fun ind => Felix.jsIncludes (Felix.jsToLower author) ind)) = false →
      Felix.jsIncludes (Felix.jsToLower author) "[bot]" = false →
      Felix.isInfiniteLoopRisk (.ok author) allowedRaw (.error ()) = false) := by
  refine ⟨?_, fun msgR => rfl, fun msgR => rfl, fun allowedRaw msgR => rfl, ?_⟩
  · intro author allowedRaw msgR h
    simp [Felix.isInfiniteLoopRisk, h]
  · intro author allowedRaw h1 h2 h3
    simp [Felix.isInfiniteLoopRisk, h1, h2, h3]

theorem C8_witness :
    Felix.isInfiniteLoopRisk (.ok "Renovate Bot[bot]") "renovate" (.ok "chore: deps") =
        false ∧
    Felix.isInfiniteLoopRisk (.ok "Regular User") "" (.error ()) = false :=
  ⟨C8_allow_list_overrides_and_fail_open.1 "Renovate Bot[bot]" "renovate"
      (.ok "chore: deps") (by decide),
    C8_allow_list_overrides_and_fail_open.2.2.2.2 "Regular User" ""
      (by decide) (by decide) (by decide)⟩

/-- Claim C9 counterexample: the loop guard's final check on the commit
subject is case-sensitive: two subjects differing only in letter case give
different skip/proceed decisions for author `"Regular User"`. -/
theorem C9_counterexample :
    Felix.jsToLower "Fix-it Felix: apply fixes" = "fix-it felix: apply fixes" ∧
    Felix.isInfiniteLoopRisk (.ok "Regular User") "" (.ok "Fix-it Felix: apply fixes") =
      true ∧
    Felix.isInfiniteLoopRisk (.ok "Regular User") "" (.ok "fix-it felix: apply fixes") =
      false :=
  ⟨by decide, by decide, by decide⟩

/-- Claim C9 as amended: the loop guard's author comparisons are
case-insensitive — its decision depends on the author string only through
its lowercase form — but the final commit-subject check is case-sensitive:
once the author branches pass, the decision is exactly whether the subject
contains the literal substring `"Fix-it Felix"`. -/
theorem C9_author_insensitive_subject_sensitive :
    (∀ (a1 a2 allowedRaw : String) (msgR : Except Unit String),
      Felix.jsToLower a1 = Felix.jsToLower a2 →
      Felix.isInfiniteLoopRisk (.ok a1) allowedRaw msgR =
        Felix.isInfiniteLoopRisk (.ok a2) allowedRaw msgR) ∧
    (∀ author allowedRaw msg : String,
      (Felix.splitCommaTrimFilter allowedRaw).any
        (fun b => Felix.jsIncludes (Felix.jsToLower author) (Felix.jsToLower b)) = false →
      (["fix-it-felix", "felix", "github-actions[bot]"].any
        (fun ind => Felix.jsIncludes (Felix.jsToLower author) ind)) = false →
      Felix.jsIncludes (Felix.jsToLower author) "[bot]" = false →
      Felix.isInfiniteLoopRisk (.ok author) allowedRaw (.ok msg) =
        Felix.jsIncludes msg "Fix-it Felix") := by
  constructor
  · intro a1 a2 allowedRaw msgR h
    simp only [Felix.isInfiniteLoopRisk, h]
  · intro author allowedRaw msg h1 h2 h3
    simp [Felix.isInfiniteLoopRisk, h1, h2, h3]

theorem C9_witness :
    Felix.isInfiniteLoopRisk (.ok "Regular User") "" (.ok "docs: update readme") =
      Felix.jsIncludes "docs: update readme" "Fix-it Felix" :=
  C9_author_insensitive_subject_sensitive.2 "Regular User" "" "docs: update readme"
    (by decide) (by decide) (by decide)
